import Mathlib

/-!
Shallow embedding of the per-geography time-series pipeline of the
CSE6242 ZORI repository (scripts/utils_series.py, scripts/time_series.py,
scripts/make_forecasts.py, scripts/volatility_index.py), together with
theorems settling the specification claims about it.

Conventions of the embedding:
- pandas timestamps at month granularity are modelled by MDate: an absolute
  month number (an integer, 12 per year) plus a day of month; "MS"
  (month-start) timestamps are the MDates with day 1.
- float64 cells that can hold NaN or infinities are modelled by PVal
  (NA | pinf | ninf | num q) with IEEE-754 division-by-zero semantics
  (the sign-of-zero subtlety is collapsed: a zero denominator is treated
  as +0, which is what the pipeline produces).
- a pandas Series is a list of (index, value) pairs in row order.
-/

namespace ZoriPipeline

/-- A month-granularity timestamp: absolute month count m (12 per year)
and day of month d. A month-start ("MS") timestamp has d = 1. -/
structure MDate where
  m : ℤ
  d : ℕ
deriving DecidableEq, Repr

def MDate.key (x : MDate) : ℤ ×ₗ ℕ := toLex (x.m, x.d)

theorem MDate.key_injective : Function.Injective MDate.key := by
  intro a b h
  cases a; cases b
  simpa [MDate.key, Prod.ext_iff] using h

instance : LinearOrder MDate := LinearOrder.lift' MDate.key MDate.key_injective

/-- IEEE-style float cell: missing (NaN), plus or minus infinity, or a
finite value modelled as a rational. -/
inductive PVal where
  | NA : PVal
  | pinf : PVal
  | ninf : PVal
  | num : ℚ → PVal
deriving DecidableEq, Repr

/-- Float subtraction: NaN propagates, same-signed infinities cancel to NaN. -/
def PVal.sub : PVal → PVal → PVal
  | .NA, _ => .NA
  | _, .NA => .NA
  | .pinf, .pinf => .NA
  | .pinf, _ => .pinf
  | .ninf, .ninf => .NA
  | .ninf, _ => .ninf
  | .num _, .pinf => .ninf
  | .num _, .ninf => .pinf
  | .num a, .num b => .num (a - b)

/-- Float absolute value. -/
def PVal.abs : PVal → PVal
  | .NA => .NA
  | .pinf => .pinf
  | .ninf => .pinf
  | .num a => .num |a|

/-- Float division with IEEE division-by-zero behaviour (zero denominators
treated as +0): finite/0 is a signed infinity, 0/0 and inf/inf are NaN,
finite/inf is 0. -/
def PVal.div : PVal → PVal → PVal
  | .NA, _ => .NA
  | _, .NA => .NA
  | .pinf, .pinf => .NA
  | .pinf, .ninf => .NA
  | .ninf, .pinf => .NA
  | .ninf, .ninf => .NA
  | .pinf, .num b => if 0 ≤ b then .pinf else .ninf
  | .ninf, .num b => if 0 ≤ b then .ninf else .pinf
  | .num _, .pinf => .num 0
  | .num _, .ninf => .num 0
  | .num a, .num b =>
      if b = 0 then (if a = 0 then .NA else if 0 < a then .pinf else .ninf)
      else .num (a / b)

/-! ## scripts/utils_series.py -/

/-- The month-start calendar between absolute months a and b inclusive,
as MS timestamps; empty when a exceeds b. Models
pandas.date_range(start, end, freq = MS) at month granularity. -/
def msRange (a b : ℤ) : List MDate :=
  (List.range (b + 1 - a).toNat).map (fun (i : ℕ) => ⟨a + (i : ℤ), 1⟩)

/-- First month whose MS timestamp is on or after the given date
(start point of date_range inside asfreq). -/
def monthStartCeil (x : MDate) : ℤ := if x.d ≤ 1 then x.m else x.m + 1

/-- Last month whose MS timestamp is on or before the given date
(end point of date_range inside asfreq). -/
def monthEndFloor (x : MDate) : ℤ := if 1 ≤ x.d then x.m else x.m - 1

/-- The index labels of a series in row order. -/
def indexDates (s : List (MDate × Option ℚ)) : List MDate := s.map Prod.fst

/-- Reindex lookup: the value at exact timestamp t, NaN when the label is
absent (pandas reindex matches labels exactly). -/
def lookupDate (s : List (MDate × Option ℚ)) (t : MDate) : Option ℚ :=
  match s.find? (fun q => decide (q.1 = t)) with
  | some q => q.2
  | none => none

/-- The try: s.asfreq("MS") except: pass step of monthly_series_for_geo.
On a duplicate index pandas reindex raises ValueError, which the bare
except swallows, leaving the series unchanged; an empty series also
passes through unchanged. Otherwise the series is reindexed onto the
month-start calendar spanning its first and last label, with NaN for
calendar months that have no exactly-matching source label. -/
def reindexMS : List (MDate × Option ℚ) → List (MDate × Option ℚ)
  | [] => []
  | p :: rest =>
      let s := p :: rest
      if (indexDates s).Nodup then
        (msRange (monthStartCeil p.1) (monthEndFloor ((rest.getLastD p).1))).map
          (fun t => (t, lookupDate s t))
      else s

/-- list_geos of utils_series.py: unique values of the geo column, nulls
dropped, empty strings dropped by the truthiness filter, sorted.
The column is modelled as a list of optional strings. -/
def list_geos (col : List (Option String)) : List String :=
  ((col.dedup.filterMap id).filter (fun x => decide (x ≠ ""))).insertionSort (· ≤ ·)

/-- One source row as seen by monthly_series_for_geo: the value of the
geo column chosen for the requested geo type, the parsed date, and the
value column (NaN-able float). -/
structure GeoRow where
  geo : String
  date : MDate
  value : Option ℚ
deriving DecidableEq, Repr

/-- Row order used by sub.sort_values("date"): compare dates only. -/
def rowDateLE (a b : MDate × Option ℚ) : Prop := a.1 ≤ b.1

instance : DecidableRel rowDateLE := fun a b => inferInstanceAs (Decidable (a.1 ≤ b.1))

instance : IsTotal (MDate × Option ℚ) rowDateLE := ⟨fun a b => le_total a.1 b.1⟩

instance : IsTrans (MDate × Option ℚ) rowDateLE := ⟨fun _ _ _ h h' => le_trans h h'⟩

/-- geo_col_map of monthly_series_for_geo: the geography column consulted
for each geo type, defaulting to the geo type itself. -/
def geo_col_of (geo_type : String) : String :=
  match (([("state", "state"), ("zip", "zip"), ("metro", "RegionName")].find?
      (fun p => decide (p.1 = geo_type)))).map Prod.snd with
  | some c => c
  | none => geo_type

/-- monthly_series_for_geo of utils_series.py, for a dataframe whose rows
have already been projected to (geo column value, date, value column):
filter the rows of the requested geo, sort them by date (stable), take
(date, value) as the series, and apply the asfreq("MS") step guarded by
the bare except. There is no emptiness check: a geo with no rows yields
the empty series. -/
def monthly_series_for_geo (df : List GeoRow) (geo : String) : List (MDate × Option ℚ) :=
  let sub := df.filter (fun r => decide (r.geo = geo))
  let sorted := (sub.map (fun r => (r.date, r.value))).insertionSort rowDateLE
  reindexMS sorted

/-! ## scripts/time_series.py -/

/-- One row of the tidy long dataframe consumed by monthly_series_by_state:
load_long has already coerced zori to float, dropped rows with null zori or
date, and normalised dates to month granularity. -/
structure TsRow where
  state : String
  date : MDate
  zori : ℚ
deriving DecidableEq, Repr

/-- Arithmetic mean of a list of rationals (length 0 never occurs at call
sites: pandas mean of a nonempty group). -/
def rationalMean (xs : List ℚ) : ℚ := xs.sum / xs.length

/-- df_state.groupby("date")["zori"].mean().sort_index(): one row per
distinct date, holding the mean zori of that date's rows, dates ascending. -/
def groupMeanByDate (rows : List (MDate × ℚ)) : List (MDate × ℚ) :=
  (((rows.map Prod.fst).dedup).insertionSort (· ≤ ·)).map
    (fun t => (t, rationalMean ((rows.filter (fun p => decide (p.1 = t))).map Prod.snd)))

/-- ts["zori"].rolling(12, min_periods = 12).mean() at row i: the mean of
rows i-11 .. i, or NaN for the first eleven rows. -/
def roll12At (vals : List ℚ) (i : ℕ) : Option ℚ :=
  if 11 ≤ i then some (rationalMean ((vals.take (i + 1)).drop (i + 1 - 12))) else none

/-- ts["zori"].pct_change(12) at row i: v_i / v_(i-12) - 1, NaN for the
first twelve rows; a zero base value gives a signed infinity (float
semantics), hence the PVal codomain. -/
def yoyAt (vals : List ℚ) (i : ℕ) : PVal :=
  match vals.get? (i - 12) with
  | none => .NA
  | some prev =>
      if 12 ≤ i then PVal.div (.num (vals.getD i 0 - prev)) (.num prev) else .NA

/-- ts.dropna(how = "all") over the columns zori, roll12 and yoy: a row is
dropped only when every cell is NaN. The zori cell of a grouped mean is a
real float, never NaN, so the first conjunct is literally false and every
row is kept. -/
def dropnaAll (rows : List (MDate × ℚ × Option ℚ × PVal)) :
    List (MDate × ℚ × Option ℚ × PVal) :=
  rows.filter (fun p => !(false && p.2.2.1.isNone && decide (p.2.2.2 = PVal.NA)))

/-- The frame built by monthly_series_by_state after the emptiness check:
monthly mean zori with roll12 and yoy columns, then dropna(how = "all"). -/
def tsFrame (df_state : List (MDate × ℚ)) : List (MDate × ℚ × Option ℚ × PVal) :=
  let g := groupMeanByDate df_state
  let vals := g.map Prod.snd
  dropnaAll (g.enum.map (fun p => (p.2.1, p.2.2, roll12At vals p.1, yoyAt vals p.1)))

/-- monthly_series_by_state of time_series.py: filter to the state; if no
row matches, raise (modelled as Except.error) carrying the requested state
and sorted(df["state"].unique()), the set of available states; otherwise
return the aggregated monthly frame. -/
def monthly_series_by_state (df : List TsRow) (state : String) :
    Except (String × List String) (List (MDate × ℚ × Option ℚ × PVal)) :=
  let df_state := df.filter (fun r => decide (r.state = state))
  if df_state.isEmpty then
    .error (state, ((df.map TsRow.state).dedup).insertionSort (· ≤ ·))
  else
    .ok (tsFrame (df_state.map (fun r => (r.date, r.zori))))

/-! ## scripts/make_forecasts.py -/

/-- The constructor arguments of statsmodels SARIMAX as passed by
sarimax_forecast. -/
structure SarimaxSpec where
  order : ℕ × ℕ × ℕ
  seasonal_order : ℕ × ℕ × ℕ × ℕ
  enforce_stationarity : Bool
  enforce_invertibility : Bool
deriving DecidableEq, Repr

/-- The fitted-model interface of the statsmodels library that
sarimax_forecast consumes: a point estimate per future step and a
two-sided confidence interval per significance level and step. The
numerical fit itself is outside this repository, so it stays abstract. -/
structure FitResult where
  predicted_mean : ℕ → ℚ
  conf_int : ℚ → ℕ → ℚ × ℚ

/-- The model specification literal of sarimax_forecast:
order=(1,1,1), seasonal_order=(0,1,1,12),
enforce_stationarity=False, enforce_invertibility=False. -/
def sarimax_config : SarimaxSpec :=
  { order := (1, 1, 1)
    seasonal_order := (0, 1, 1, 12)
    enforce_stationarity := false
    enforce_invertibility := false }

/-- The argparse default of the steps option of make_forecasts.py. -/
def steps_default : ℕ := 9

/-- sarimax_forecast of make_forecasts.py, parameterised by the statsmodels
fitting backend: build the SARIMAX model with the fixed configuration, fit
it on the series, take steps point forecasts from get_forecast and the
95 percent interval from conf_int(alpha = 0.05), renaming the two interval
columns to ci95_lo and ci95_hi. -/
def sarimax_forecast (fitLib : SarimaxSpec → List (MDate × Option ℚ) → FitResult)
    (y : List (MDate × Option ℚ)) (steps : ℕ) : List ℚ × List (ℚ × ℚ) :=
  let res := fitLib sarimax_config y
  ((List.range steps).map res.predicted_mean,
    (List.range steps).map (res.conf_int (5 / 100)))

/-- A calendar date cell as it appears in the forecast.csv artifact: the
pandas datetime index is rendered year-month-day and parsed back by
read_csv(parse_dates = ["date"]). -/
structure CsvDate where
  year : ℤ
  month : ℕ
  day : ℕ
deriving DecidableEq, Repr

/-- Rendering a month-granularity timestamp into its csv cell. -/
def dateToCsv (t : MDate) : CsvDate :=
  ⟨t.m.ediv 12, (t.m.emod 12).toNat + 1, t.d⟩

/-- Parsing a csv date cell back to a timestamp (pd.to_datetime /
parse_dates). -/
def csvToDate (c : CsvDate) : MDate :=
  ⟨12 * c.year + ((c.month : ℤ) - 1), c.day⟩

/-- One row of a ForecastResult as assembled by export_and_plot:
pd.concat([mean.rename("mean"), ci], axis=1) with a datetime index. -/
structure ForecastRow where
  date : MDate
  mean : ℚ
  ci95_lo : ℚ
  ci95_hi : ℚ
deriving DecidableEq, Repr

/-- The csv-writing half of export_and_plot of make_forecasts.py: the
datetime index is written as a date column followed by the mean, ci95_lo
and ci95_hi columns. The figure branch only renders a png and is not part
of the artifact. -/
def export_and_plot (rows : List ForecastRow) : List (CsvDate × ℚ × ℚ × ℚ) :=
  rows.map (fun r => (dateToCsv r.date, r.mean, r.ci95_lo, r.ci95_hi))

/-- pd.read_csv(..., parse_dates = ["date"], index_col = "date") applied to
a forecast artifact: each date cell is parsed back to a timestamp and the
three float columns are read back. -/
def read_forecast_csv (cells : List (CsvDate × ℚ × ℚ × ℚ)) : List ForecastRow :=
  cells.map (fun c => ⟨csvToDate c.1, c.2.1, c.2.2.1, c.2.2.2⟩)

/-- The per-region loop of main in make_forecasts.py (volatility_index.py
has the same shape): regions are processed sequentially with no
try/except, so the first uncaught per-region exception aborts the loop;
artifacts persisted before it remain on disk, later regions get none.
The per-region body (series extraction, SARIMAX fit, artifact write) is
abstracted as a fallible process function; the result is the list of
persisted artifacts with the escaped exception, if any. -/
def forecasts_batch {A : Type} (process : String → Except String A) :
    List String → List (String × A) × Option String
  | [] => ([], none)
  | g :: gs =>
      match process g with
      | .ok a =>
          let rest := forecasts_batch process gs
          ((g, a) :: rest.1, rest.2)
      | .error e => ([], some e)

/-! ## scripts/volatility_index.py -/

/-- The per-period arithmetic of volatility_from_forecast_csv:
(df["ci95_hi"] - df["ci95_lo"]).abs() / df["mean"].abs() on one row,
under float semantics. -/
def viCell (mean lo hi : PVal) : PVal :=
  PVal.div (PVal.abs (PVal.sub hi lo)) (PVal.abs mean)

/-- volatility_from_forecast_csv of volatility_index.py: read the forecast
artifact (date cells parsed to timestamps, float cells possibly NaN), and
compute the interval width over the absolute point estimate per row. -/
def volatility_from_forecast_csv (cells : List (CsvDate × PVal × PVal × PVal)) :
    List (MDate × PVal) :=
  cells.map (fun c => (csvToDate c.1, viCell c.2.1 c.2.2.1 c.2.2.2))

/-- min_periods = max(3, window // 2) as used by residual_volatility. -/
def minPeriods (window : ℕ) : ℕ := max 3 (window / 2)

/-- The rows a width-w rolling window sees at row i: rows i+1-w .. i. -/
def windowSlice {α : Type} (l : List α) (w i : ℕ) : List α :=
  (l.take (i + 1)).drop (i + 1 - w)

/-- y.rolling(window, min_periods = max(3, window // 2)).mean() at row i:
NaN observations inside the window are skipped; the mean is produced once
at least min_periods real observations are present. -/
def rollingMeanAt (y : List (Option ℚ)) (w i : ℕ) : Option ℚ :=
  let obs := (windowSlice y w i).filterMap id
  if minPeriods w ≤ obs.length then some (rationalMean obs) else none

/-- The residual (y - y_fit) at row i: raw value minus rolling trend, NaN
when either is NaN. -/
def residAt (y : List (Option ℚ)) (w i : ℕ) : Option ℚ :=
  match y.getD i none, rollingMeanAt y w i with
  | some v, some t => some (v - t)
  | _, _ => none

/-- (y - y_fit).dropna(): the real residual rows, keeping the original row
position as the index label. -/
def residRows (y : List (Option ℚ)) (w : ℕ) : List (ℕ × ℚ) :=
  (List.range y.length).filterMap (fun i => (residAt y w i).map (fun q => (i, q)))

/-- Unbiased sample variance (pandas std uses ddof = 1); NaN (none) when
fewer than two observations. Its square root is the rolling std. -/
def sampleVar (xs : List ℚ) : Option ℚ :=
  if 2 ≤ xs.length then
    some (((xs.map (fun x => (x - rationalMean xs) ^ 2)).sum) / ((xs.length : ℚ) - 1))
  else none

/-- resid.rolling(window, min_periods = max(3, window // 2)).std() squared,
at row j of the dropna-ed residual series: the window is positional over
the residual rows (integer-width rolling ignores calendar gaps). -/
def rollingVarAt (r : List (ℕ × ℚ)) (w j : ℕ) : Option ℚ :=
  let win := windowSlice r w j
  if minPeriods w ≤ win.length then sampleVar (win.map Prod.snd) else none

/-- The rolling residual variance indexed by original month position:
row j of the residual series carries month label r_j.1. -/
def stdVarRows (y : List (Option ℚ)) (w : ℕ) : List (ℕ × Option ℚ) :=
  let r := residRows y w
  r.enum.map (fun q => (q.2.1, rollingVarAt r w q.1))

/-- The rolling residual variance at a given month label, none when the
month has no residual row or the window is too short there. -/
def stdVarAtMonth (y : List (Option ℚ)) (w i : ℕ) : Option ℚ :=
  match (stdVarRows y w).find? (fun p => decide (p.1 = i)) with
  | some p => p.2
  | none => none

/-- The emitted rows of residual_volatility before taking the square root:
vi = resid.rolling(...).std() / y_fit aligns the std series (indexed by
residual months) with the full-index trend series, and vi.dropna() then
keeps a month exactly when the rolling variance is defined there, the
trend is defined there, and the quotient is not NaN; the quotient of
floats is NaN only for 0/0, that is when the std and the trend are both
zero. Each kept row records (month, variance, trend). -/
def residual_volatility_core (y : List (Option ℚ)) (w : ℕ) : List (ℕ × ℚ × ℚ) :=
  (stdVarRows y w).filterMap (fun p =>
    match p.2, rollingMeanAt y w p.1 with
    | some v, some t => if v = 0 ∧ t = 0 then none else some (p.1, v, t)
    | _, _ => none)

/-- A float index value that survived dropna: plus infinity (a positive
std divided by a zero trend) or a real number. -/
inductive RVal where
  | pinf : RVal
  | num : ℝ → RVal

/-- residual_volatility of volatility_index.py: the volatility index
series sqrt(rolling variance of residuals) / rolling trend, with its NaN
rows dropped. Months are row positions of the input series. -/
noncomputable def residual_volatility (y : List (Option ℚ)) (w : ℕ) : List (ℕ × RVal) :=
  (residual_volatility_core y w).map (fun p =>
    if p.2.2 = 0 then (p.1, RVal.pinf) else (p.1, RVal.num (Real.sqrt p.2.1 / p.2.2)))

/-! ## Claim C6 -/

/-- C6: the Geo Catalog returns the sorted, deduplicated list of
identifiers present in the geography column, with nulls and empty strings
excluded; on the column GA, TX, GA, CA, null, empty it returns exactly
CA, GA, TX. -/
theorem C6_list_geos_sorted_distinct (col : List (Option String)) :
    (list_geos col).Sorted (· ≤ ·) ∧ (list_geos col).Nodup ∧
    (∀ x : String, x ∈ list_geos col ↔ some x ∈ col ∧ x ≠ "") ∧
    list_geos [some "GA", some "TX", some "GA", some "CA", none, some ""] =
      ["CA", "GA", "TX"] := by
  refine ⟨List.sorted_insertionSort _ _, ?_, ?_, ?_⟩
  · refine ((List.perm_insertionSort _ _).nodup_iff).mpr ?_
    exact (col.nodup_dedup.filterMap (by intro a a' b hb hb'; cases a <;> cases a' <;>
      simp_all)).filter _
  · intro x
    unfold list_geos
    rw [(List.perm_insertionSort _ _).mem_iff]
    simp [List.mem_filter, List.mem_filterMap, List.mem_dedup]
  · simp [list_geos, List.insertionSort, List.orderedInsert]
    decide

/-! ## Claim C5 -/

/-- C5: the Forecast Engine builds the SARIMAX model with order (1,1,1)
and seasonal order (0,1,1,12), does not enforce stationarity or
invertibility, uses the default horizon 9, and for any fitting backend
produces exactly H point estimates with the two-sided interval taken at
alpha 0.05. -/
theorem C5_sarimax_configuration
    (fitLib : SarimaxSpec → List (MDate × Option ℚ) → FitResult)
    (y : List (MDate × Option ℚ)) (steps : ℕ) :
    sarimax_config.order = (1, 1, 1) ∧
    sarimax_config.seasonal_order = (0, 1, 1, 12) ∧
    sarimax_config.enforce_stationarity = false ∧
    sarimax_config.enforce_invertibility = false ∧
    steps_default = 9 ∧
    (sarimax_forecast fitLib y steps).1.length = steps ∧
    (sarimax_forecast fitLib y steps).2.length = steps ∧
    sarimax_forecast fitLib y steps =
      ((List.range steps).map (fitLib sarimax_config y).predicted_mean,
        (List.range steps).map ((fitLib sarimax_config y).conf_int (5 / 100))) := by
  refine ⟨rfl, rfl, rfl, rfl, rfl, ?_, ?_, rfl⟩ <;>
    simp [sarimax_forecast]

/-! ## Claim C9 -/

theorem csvToDate_dateToCsv (t : MDate) : csvToDate (dateToCsv t) = t := by
  cases t with
  | mk m d =>
    simp only [csvToDate, dateToCsv]
    refine congrArg (fun z => MDate.mk z d) ?_
    have hnn : 0 ≤ m.emod 12 := Int.emod_nonneg m (by norm_num)
    have hdm : 12 * m.ediv 12 + m.emod 12 = m := Int.ediv_add_emod m 12
    push_cast [Int.toNat_of_nonneg hnn]
    omega

/-- C9: writing a ForecastResult to the per-region artifact and reading it
back yields the same sequence of (month, mean, ci95_lo, ci95_hi) rows,
the month parsed back to the same calendar date. -/
theorem C9_artifact_roundtrip (rows : List ForecastRow) :
    read_forecast_csv (export_and_plot rows) = rows := by
  unfold read_forecast_csv export_and_plot
  rw [List.map_map]
  conv_rhs => rw [← List.map_id rows]
  refine List.map_congr_left ?_
  intro r _
  cases r with
  | mk t m lo hi => simp [Function.comp, csvToDate_dateToCsv]

/-! ## Claims C1 and C10 -/


/-- C1 (amended): per forecast period the index is the absolute interval
width over the absolute point estimate when the point estimate is nonzero;
a zero point estimate yields plus infinity when the bounds differ and NaN
(missing) when they coincide, by float division-by-zero semantics. -/
theorem C1_forecast_volatility_cases (p l u : ℚ) :
    (∀ cells, volatility_from_forecast_csv cells =
      cells.map (fun c => (csvToDate c.1, viCell c.2.1 c.2.2.1 c.2.2.2))) ∧
    (p ≠ 0 → viCell (.num p) (.num l) (.num u) = .num (|u - l| / |p|)) ∧
    (p = 0 → u ≠ l → viCell (.num p) (.num l) (.num u) = .pinf) ∧
    (p = 0 → u = l → viCell (.num p) (.num l) (.num u) = .NA) ∧
    viCell (.num 100) (.num 90) (.num 110) = .num (1 / 5) := by
  refine ⟨fun _ => rfl, ?_, ?_, ?_, ?_⟩
  · intro hp
    simp [viCell, PVal.sub, PVal.abs, PVal.div, abs_eq_zero, hp]
  · intro hp hul
    have h1 : |u - l| ≠ 0 := by
      simpa [sub_eq_zero] using fun h => hul h
    have h2 : 0 < |u - l| := lt_of_le_of_ne (abs_nonneg _) (Ne.symm h1)
    simp [viCell, PVal.sub, PVal.abs, PVal.div, hp, h1, h2]
  · intro hp hul
    simp [viCell, PVal.sub, PVal.abs, PVal.div, hp, hul]
  · norm_num [viCell, PVal.sub, PVal.abs, PVal.div]

theorem C1_forecast_volatility_cases_witness :
    viCell (.num 100) (.num 90) (.num 110) = .num (1 / 5) ∧
    viCell (.num 0) (.num 90) (.num 110) = .pinf ∧
    viCell (.num 0) (.num 90) (.num 90) = .NA :=
  ⟨(C1_forecast_volatility_cases 100 90 110).2.2.2.2,
   (C1_forecast_volatility_cases 0 90 110).2.2.1 rfl (by norm_num),
   (C1_forecast_volatility_cases 0 90 90).2.2.2.1 rfl rfl⟩

/-- The claim that a zero point estimate yields a missing index is false:
with point 0, lower 90, upper 110 the code computes 20 / 0 = plus
infinity, which is not the missing value. -/
theorem C1_counterexample :
    volatility_from_forecast_csv [(⟨169, 1, 1⟩, .num 0, .num 90, .num 110)] =
      [(⟨2028, 1⟩, PVal.pinf)] ∧ PVal.pinf ≠ PVal.NA := by
  constructor
  · norm_num [volatility_from_forecast_csv, viCell, csvToDate, PVal.sub, PVal.abs, PVal.div]
  · simp



/-- Non-negativity for float values that can appear as a quotient of two
absolute values: plus infinity or a non-negative real; NaN and minus
infinity do not qualify. -/
def PVal.NonNeg : PVal → Prop
  | .pinf => True
  | .num q => 0 ≤ q
  | _ => False

theorem PVal_abs_shape (x : PVal) :
    PVal.abs x = .NA ∨ PVal.abs x = .pinf ∨ ∃ q, PVal.abs x = .num q ∧ 0 ≤ q := by
  cases x <;> simp [PVal.abs]

/-- C10: every defined (non-missing) forecast-mode volatility value is
non-negative: it is plus infinity or a non-negative real, being a quotient
of two absolute values. -/
theorem C10_forecast_volatility_nonneg
    (cells : List (CsvDate × PVal × PVal × PVal)) (t : MDate) (v : PVal)
    (hmem : (t, v) ∈ volatility_from_forecast_csv cells) (hv : v ≠ .NA) :
    v.NonNeg := by
  rcases List.mem_map.mp hmem with ⟨c, hc, heq⟩
  have hv' : v = viCell c.2.1 c.2.2.1 c.2.2.2 := (congrArg Prod.snd heq).symm
  subst hv'
  unfold viCell at hv ⊢
  rcases PVal_abs_shape (PVal.sub c.2.2.2 c.2.2.1) with hn | hn | ⟨q, hn, hq⟩ <;>
    rcases PVal_abs_shape c.2.1 with hd | hd | ⟨q', hd, hq'⟩ <;>
      rw [hn, hd] at hv ⊢
  · exact absurd rfl hv
  · exact absurd rfl hv
  · exact absurd rfl hv
  · exact absurd rfl hv
  · exact absurd rfl hv
  · simp only [PVal.div]
    rw [if_pos hq']
    trivial
  · exact absurd rfl hv
  · simp [PVal.div, PVal.NonNeg]
  · simp only [PVal.div] at hv ⊢
    split_ifs at hv ⊢ with h1 h2 h3
    · exact absurd rfl hv
    · trivial
    · exact absurd (lt_of_le_of_ne hq (Ne.symm h2)) h3
    · exact div_nonneg hq hq'

theorem C10_forecast_volatility_nonneg_witness :
    PVal.NonNeg (.num (3 / 2)) :=
  C10_forecast_volatility_nonneg [(⟨169, 1, 1⟩, .num 2, .num 1, .num 4)]
    ⟨2028, 1⟩ (.num (3 / 2))
    (by norm_num [volatility_from_forecast_csv, viCell, csvToDate, PVal.sub, PVal.abs, PVal.div])
    (by simp)


/-! ## Claim C2 -/


/-- C2 (amended): the per-region loop has no exception handling, so the
first failing region aborts the batch: regions processed before it keep
their persisted artifacts, the failing region and all later regions
persist nothing, and the exception escapes the batch call. An all-ok
batch persists one artifact per region and raises nothing. -/
theorem C2_batch_aborts_on_first_failure {A : Type}
    (process : String → Except String A)
    (pre post : List String) (g e : String)
    (hpre : ∀ x ∈ pre, ∃ a, process x = .ok a)
    (hg : process g = .error e) :
    (forecasts_batch process (pre ++ g :: post)).2 = some e ∧
    (forecasts_batch process (pre ++ g :: post)).1.map Prod.fst = pre ∧
    (∀ gs : List String, (∀ x ∈ gs, ∃ a, process x = .ok a) →
      (forecasts_batch process gs).2 = none ∧
      (forecasts_batch process gs).1.map Prod.fst = gs) := by
  refine ⟨?_, ?_, ?_⟩
  · induction pre with
    | nil => simp [forecasts_batch, hg]
    | cons x xs ih =>
        obtain ⟨a, ha⟩ := hpre x (by simp)
        simpa [forecasts_batch, ha] using ih (fun z hz => hpre z (by simp [hz]))
  · induction pre with
    | nil => simp [forecasts_batch, hg]
    | cons x xs ih =>
        obtain ⟨a, ha⟩ := hpre x (by simp)
        simpa [forecasts_batch, ha] using ih (fun z hz => hpre z (by simp [hz]))
  · intro gs hok
    induction gs with
    | nil => simp [forecasts_batch]
    | cons x xs ih =>
        obtain ⟨a, ha⟩ := hok x (by simp)
        have ih' := ih (fun z hz => hok z (by simp [hz]))
        simp [forecasts_batch, ha, ih'.1, ih'.2]

def processOkTx : String → Except String Unit := fun g =>
  if g = "00501" then .error "InsufficientHistoryError" else .ok ()

theorem C2_batch_aborts_on_first_failure_witness :
    (forecasts_batch processOkTx ["00501", "TX"]).2 = some "InsufficientHistoryError" ∧
    (forecasts_batch processOkTx ["00501", "TX"]).1.map Prod.fst = [] := by
  have h := C2_batch_aborts_on_first_failure processOkTx [] ["TX"] "00501"
    "InsufficientHistoryError" (by simp) (by rfl)
  exact ⟨h.1, h.2.1⟩

/-- Modelled from the spec: the Forecast Engine fails with
InsufficientHistoryError on a region whose series has too little history
for the seasonal model (about 24 months); the statsmodels internals that
raise on a 3-month series are outside this repository. Region 00501 has 3
months of history, region TX has 60. -/
def processInsufficientHistory : String → Except String Unit := fun g =>
  if (if g = "00501" then 3 else 60) < 24
  then .error "InsufficientHistoryError" else .ok ()

/-- The batch-isolation claim is false on the code: with regions 00501
(3 months, fails) and TX (60 months, succeeds) in one batch, the exception
escapes the batch call and no artifact is persisted for TX. -/
theorem C2_counterexample :
    forecasts_batch processInsufficientHistory ["00501", "TX"] =
      ([], some "InsufficientHistoryError") ∧
    (forecasts_batch processInsufficientHistory ["00501", "TX"]).2 ≠ none ∧
    (∀ a, ("TX", a) ∉ (forecasts_batch processInsufficientHistory ["00501", "TX"]).1) := by
  refine ⟨by rfl, by simp [forecasts_batch, processInsufficientHistory], ?_⟩
  intro a
  simp [forecasts_batch, processInsufficientHistory]


/-! ## Claim C4 -/


/-- C4 (amended): the general Series Extractor monthly_series_for_geo has
no emptiness check and returns the empty series for a region with no
matching rows; only the state-level extractor monthly_series_by_state
fails, with an error naming the requested state and the sorted set of
states available in the dataset. -/
theorem C4_empty_region_behaviour (df : List GeoRow) (geo : String)
    (ts : List TsRow) (st : String)
    (h1 : df.filter (fun r => decide (r.geo = geo)) = [])
    (h2 : ts.filter (fun r => decide (r.state = st)) = []) :
    monthly_series_for_geo df geo = [] ∧
    monthly_series_by_state ts st =
      .error (st, ((ts.map TsRow.state).dedup).insertionSort (· ≤ ·)) := by
  constructor
  · simp [monthly_series_for_geo, h1, reindexMS]
  · simp [monthly_series_by_state, h2]

theorem C4_empty_region_behaviour_witness :
    monthly_series_for_geo [⟨"TX", ⟨600, 1⟩, some 5⟩] "GA" = [] ∧
    monthly_series_by_state [⟨"TX", ⟨600, 1⟩, 5⟩] "GA" = .error ("GA", ["TX"]) := by
  have h := C4_empty_region_behaviour [⟨"TX", ⟨600, 1⟩, some 5⟩] "GA"
    [⟨"TX", ⟨600, 1⟩, 5⟩] "GA" (by decide) (by decide)
  exact ⟨h.1, h.2⟩

/-- The claim that the Series Extractor fails on a region with no matching
rows is false for monthly_series_for_geo: it returns the empty series
rather than raising. -/
theorem C4_counterexample :
    monthly_series_for_geo [⟨"TX", ⟨600, 1⟩, some 5⟩] "GA" = [] ∧
    ([⟨"TX", ⟨600, 1⟩, some 5⟩] : List GeoRow) ≠ [] := by
  constructor
  · decide
  · simp


/-! ## Claim C8 -/


theorem msRange_nil {a b : ℤ} (h : b < a) : msRange a b = [] := by
  unfold msRange
  have h0 : (b + 1 - a).toNat = 0 := by omega
  simp [h0]

theorem msRange_eq_cons {a b : ℤ} (h : a ≤ b) :
    msRange a b = ⟨a, 1⟩ :: msRange (a + 1) b := by
  unfold msRange
  have h1 : (b + 1 - a).toNat = (b + 1 - (a + 1)).toNat + 1 := by omega
  rw [h1, List.range_succ_eq_map, List.map_cons, List.map_map]
  refine congrArg₂ _ (by simp) (List.map_congr_left ?_)
  intro i _
  simp only [Function.comp_apply, Nat.succ_eq_add_one, MDate.mk.injEq, and_true]
  push_cast
  ring

theorem mem_msRange {a b : ℤ} {x : MDate} :
    x ∈ msRange a b ↔ x.d = 1 ∧ a ≤ x.m ∧ x.m ≤ b := by
  unfold msRange
  simp only [List.mem_map, List.mem_range]
  constructor
  · rintro ⟨i, hi, rfl⟩
    dsimp only
    refine ⟨rfl, by omega, by omega⟩
  · rintro ⟨hd, hab, hba⟩
    refine ⟨(x.m - a).toNat, by omega, ?_⟩
    cases x with
    | mk xm xd =>
        simp only at hd hab hba
        subst hd
        have hc : ((xm - a).toNat : ℤ) = xm - a := Int.toNat_of_nonneg (by omega)
        simp [hc]

theorem msRange_pairwise (a b : ℤ) : List.Pairwise (· < ·) (msRange a b) := by
  unfold msRange
  rw [List.pairwise_map]
  refine (List.pairwise_lt_range _).imp ?_
  intro i j hij
  show MDate.key _ < MDate.key _
  simp only [MDate.key]
  exact Prod.Lex.left _ _ (by omega)

theorem msRange_nodup (a b : ℤ) : (msRange a b).Nodup :=
  (msRange_pairwise a b).imp ne_of_lt

theorem msRange_getLastD {a b : ℤ} (h : a ≤ b) (x : MDate) :
    (msRange a b).getLastD x = ⟨b, 1⟩ := by
  obtain ⟨n, hn⟩ : ∃ n : ℕ, b - a = n := ⟨(b - a).toNat, by omega⟩
  induction n generalizing a x with
  | zero =>
      have hab : a = b := by omega
      subst hab
      rw [msRange_eq_cons le_rfl, msRange_nil (by omega)]
      rfl
  | succ k ih =>
      rw [msRange_eq_cons h, List.getLastD_cons]
      exact ih (by omega) _ (by omega)

theorem getLastD_map {α β : Type} (f : α → β) (l : List α) (x : α) :
    (l.map f).getLastD (f x) = f (l.getLastD x) := by
  induction l generalizing x with
  | nil => rfl
  | cons y ys ih => rw [List.map_cons, List.getLastD_cons, List.getLastD_cons, ih]

theorem find?_graph {β : Type} (g : MDate → β) (l : List MDate) (d : MDate) (h : d ∈ l) :
    (l.map (fun x => (x, g x))).find? (fun q => decide (q.1 = d)) = some (d, g d) := by
  induction l with
  | nil => cases h
  | cons x xs ih =>
      rw [List.map_cons, List.find?_cons]
      by_cases hx : x = d
      · subst hx
        simp
      · have hfalse : (decide ((x, g x).1 = d)) = false := by simp [hx]
        rw [hfalse]
        exact ih (by rcases List.mem_cons.mp h with h' | h' <;>
          [exact absurd h'.symm hx; exact h'])

theorem lookupDate_graph (g : MDate → Option ℚ) (l : List MDate) (t : MDate) (h : t ∈ l) :
    lookupDate (l.map (fun x => (x, g x))) t = g t := by
  unfold lookupDate
  rw [find?_graph g l t h]

theorem reindexMS_of_dup (s : List (MDate × Option ℚ)) (h : ¬ (indexDates s).Nodup) :
    reindexMS s = s := by
  cases s with
  | nil => rfl
  | cons p rest => simp [reindexMS, h]

theorem reindexMS_cons_eq (p : MDate × Option ℚ) (rest : List (MDate × Option ℚ))
    (hnd : (indexDates (p :: rest)).Nodup) :
    reindexMS (p :: rest) =
      (msRange (monthStartCeil p.1) (monthEndFloor ((rest.getLastD p).1))).map
        (fun t => (t, lookupDate (p :: rest) t)) := by
  simp [reindexMS, hnd]

theorem reindexMS_graph_fixed (g : MDate → Option ℚ) (a b : ℤ) :
    reindexMS ((msRange a b).map (fun t => (t, g t))) =
      (msRange a b).map (fun t => (t, g t)) := by
  by_cases hab : a ≤ b
  · have hcons := msRange_eq_cons hab
    have hL : (msRange a b).map (fun t => (t, g t)) =
        (⟨a, 1⟩, g ⟨a, 1⟩) :: (msRange (a + 1) b).map (fun t => (t, g t)) := by
      rw [hcons, List.map_cons]
    have hnd : (indexDates ((⟨a, 1⟩, g ⟨a, 1⟩) ::
        (msRange (a + 1) b).map (fun t => (t, g t)))).Nodup := by
      rw [← hL]
      simpa [indexDates, List.map_map, Function.comp_def] using msRange_nodup a b
    have hlast0 : (msRange (a + 1) b).getLastD (⟨a, 1⟩ : MDate) = ⟨b, 1⟩ := by
      by_cases hab' : a + 1 ≤ b
      · exact msRange_getLastD hab' _
      · have hb : a = b := by omega
        subst hb
        rw [msRange_nil (by omega)]
        rfl
    have hlast1 : (((msRange (a + 1) b).map (fun t => (t, g t))).getLastD
        (⟨a, 1⟩, g ⟨a, 1⟩)).1 = (⟨b, 1⟩ : MDate) := by
      rw [getLastD_map (fun t => (t, g t)) _ _]
      exact hlast0
    rw [hL, reindexMS_cons_eq _ _ hnd, hlast1]
    have hstart : monthStartCeil (⟨a, 1⟩ : MDate) = a := by simp [monthStartCeil]
    have hend : monthEndFloor (⟨b, 1⟩ : MDate) = b := by simp [monthEndFloor]
    rw [hstart, hend, ← hL]
    refine List.map_congr_left ?_
    intro t ht
    rw [lookupDate_graph g _ t ht]
  · have hnil : msRange a b = [] := msRange_nil (by omega)
    rw [hnil]
    rfl

/-- C8: the monthly re-indexing step of the Series Extractor (asfreq onto
the month-start calendar, guarded by the bare except that leaves a
duplicate-labelled or empty series unchanged) is idempotent: applying it
twice gives the same series as applying it once, for every series. -/
theorem C8_reindex_idempotent (s : List (MDate × Option ℚ)) :
    reindexMS (reindexMS s) = reindexMS s := by
  cases s with
  | nil => rfl
  | cons p rest =>
      by_cases hnd : (indexDates (p :: rest)).Nodup
      · rw [reindexMS_cons_eq p rest hnd]
        exact reindexMS_graph_fixed (lookupDate (p :: rest)) _ _
      · rw [reindexMS_of_dup _ hnd, reindexMS_of_dup _ hnd]


/-! ## Claim C3 -/


/-- The dates of the rows matching a geo, in source order. -/
def matchingDates (df : List GeoRow) (geo : String) : List MDate :=
  (df.filter (fun r => decide (r.geo = geo))).map GeoRow.date

theorem sorted_head_le {q : MDate × Option ℚ} {qs : List (MDate × Option ℚ)}
    (hs : List.Sorted rowDateLE (q :: qs)) (x : MDate × Option ℚ) (hx : x ∈ q :: qs) :
    rowDateLE q x := by
  rcases List.mem_cons.mp hx with rfl | hx'
  · exact le_refl x.1
  · exact List.rel_of_sorted_cons hs x hx'

theorem sorted_le_getLast {l : List (MDate × Option ℚ)}
    (hs : List.Sorted rowDateLE l) (x : MDate × Option ℚ) (hx : x ∈ l) (hne : l ≠ []) :
    rowDateLE x (l.getLast hne) := by
  induction l generalizing x with
  | nil => cases hx
  | cons y ys ih =>
      cases ys with
      | nil =>
          have hxy : x = y := by simpa using hx
          subst hxy
          exact le_refl x.1
      | cons z zs =>
          rw [List.getLast_cons (by simp)]
          rcases List.mem_cons.mp hx with rfl | hx'
          · exact List.rel_of_sorted_cons hs _ (List.getLast_mem (by simp))
          · exact ih hs.of_cons x hx' (by simp)

/-- C3 (amended): for a region with at least one matching row and
pairwise-distinct row dates, the extractor output is indexed by the
month-start calendar running from the first month-start on or after the
earliest matching date through the last month-start on or before the
latest matching date; that index is strictly increasing and duplicate
free, and every calendar month in it that no source row dates exactly
carries an explicit missing marker. -/
theorem C3_series_extractor_guarantees (df : List GeoRow) (geo : String)
    (dmin dmax : MDate)
    (hnd : (matchingDates df geo).Nodup)
    (hmin : dmin ∈ matchingDates df geo ∧ ∀ x ∈ matchingDates df geo, dmin ≤ x)
    (hmax : dmax ∈ matchingDates df geo ∧ ∀ x ∈ matchingDates df geo, x ≤ dmax) :
    (monthly_series_for_geo df geo).map Prod.fst =
      msRange (monthStartCeil dmin) (monthEndFloor dmax) ∧
    List.Pairwise (· < ·) ((monthly_series_for_geo df geo).map Prod.fst) ∧
    ((monthly_series_for_geo df geo).map Prod.fst).Nodup ∧
    (∀ t ∈ (monthly_series_for_geo df geo).map Prod.fst,
      (¬ ∃ r ∈ df, r.geo = geo ∧ r.date = t) →
        (t, none) ∈ monthly_series_for_geo df geo) := by
  classical
  set F := df.filter (fun r => decide (r.geo = geo)) with hF
  set pairs := F.map (fun r => (r.date, r.value)) with hpairs
  set sorted := pairs.insertionSort rowDateLE with hsorted
  have hperm : List.Perm sorted pairs := List.perm_insertionSort rowDateLE pairs
  have hdates : pairs.map Prod.fst = matchingDates df geo := by
    rw [hpairs, List.map_map]
    rfl
  have hidx_perm : List.Perm (indexDates sorted) (matchingDates df geo) := by
    rw [← hdates]
    exact hperm.map Prod.fst
  have hidx_nd : (indexDates sorted).Nodup := hidx_perm.nodup_iff.mpr hnd
  have hne : sorted ≠ [] := by
    intro h0
    have hp0 : pairs = [] := by
      have h1 := hperm
      rw [h0] at h1
      exact h1.nil_eq.symm
    have h2 : matchingDates df geo = [] := by
      rw [← hdates, hp0]
      rfl
    rw [h2] at hmin
    exact absurd hmin.1 (by simp)
  have hsort : List.Sorted rowDateLE sorted := List.sorted_insertionSort rowDateLE pairs
  obtain ⟨q, qs, hqs⟩ := List.exists_cons_of_ne_nil hne
  have hq_min : q.1 = dmin := by
    have hq_mem : q.1 ∈ indexDates sorted := by
      rw [hqs]
      exact List.mem_map.mpr ⟨q, by simp, rfl⟩
    have h1 : dmin ≤ q.1 := hmin.2 _ (hidx_perm.subset hq_mem)
    obtain ⟨q', hq'_mem, hq'_eq⟩ : ∃ q' ∈ sorted, q'.1 = dmin := by
      have hm : dmin ∈ indexDates sorted := hidx_perm.symm.subset hmin.1
      rcases List.mem_map.mp hm with ⟨q', hq', h⟩
      exact ⟨q', hq', h⟩
    have h2 : q.1 ≤ dmin := by
      have h3 := sorted_head_le (hqs ▸ hsort) q' (hqs ▸ hq'_mem)
      have h4 : q.1 ≤ q'.1 := h3
      rw [hq'_eq] at h4
      exact h4
    exact le_antisymm h2 h1
  have hlast_max : (qs.getLastD q).1 = dmax := by
    have hlast_eq : qs.getLastD q = sorted.getLast hne := by
      conv_rhs => rw [show sorted.getLast hne = (q :: qs).getLast (by simp) from by
        congr 1]
      rw [List.getLast_eq_getLastD]
    have hlast_mem : sorted.getLast hne ∈ sorted := List.getLast_mem hne
    have h1 : (sorted.getLast hne).1 ≤ dmax := by
      refine hmax.2 _ (hidx_perm.subset ?_)
      exact List.mem_map.mpr ⟨_, hlast_mem, rfl⟩
    obtain ⟨q'', hq''_mem, hq''_eq⟩ : ∃ q'' ∈ sorted, q''.1 = dmax := by
      have hm : dmax ∈ indexDates sorted := hidx_perm.symm.subset hmax.1
      rcases List.mem_map.mp hm with ⟨q'', hq'', h⟩
      exact ⟨q'', hq'', h⟩
    have h2 : dmax ≤ (sorted.getLast hne).1 := by
      have h3 := sorted_le_getLast hsort q'' hq''_mem hne
      have h4 : q''.1 ≤ (sorted.getLast hne).1 := h3
      rw [hq''_eq] at h4
      exact h4
    rw [hlast_eq]
    exact le_antisymm h1 h2
  have hres : monthly_series_for_geo df geo =
      (msRange (monthStartCeil dmin) (monthEndFloor dmax)).map
        (fun t => (t, lookupDate sorted t)) := by
    show reindexMS sorted = _
    rw [hqs, reindexMS_cons_eq q qs (hqs ▸ hidx_nd), hq_min, hlast_max, ← hqs]
  have hmapfst : (monthly_series_for_geo df geo).map Prod.fst =
      msRange (monthStartCeil dmin) (monthEndFloor dmax) := by
    rw [hres, List.map_map]
    simp [Function.comp_def]
  refine ⟨hmapfst, ?_, ?_, ?_⟩
  · rw [hmapfst]
    exact msRange_pairwise _ _
  · rw [hmapfst]
    exact msRange_nodup _ _
  · intro t ht habs
    have ht' : t ∈ msRange (monthStartCeil dmin) (monthEndFloor dmax) := hmapfst ▸ ht
    have hlook : lookupDate sorted t = none := by
      unfold lookupDate
      rw [List.find?_eq_none.mpr ?_]
      intro x hx
      simp only [decide_eq_true_eq]
      intro hxt
      have hx_pairs : x ∈ pairs := hperm.subset hx
      rcases List.mem_map.mp hx_pairs with ⟨r, hrF, hrx⟩
      have hr_df : r ∈ df ∧ r.geo = geo := by
        have hmem := List.mem_filter.mp (hF ▸ hrF)
        exact ⟨hmem.1, of_decide_eq_true hmem.2⟩
      exact habs ⟨r, hr_df.1, hr_df.2, by rw [← hxt, ← hrx]⟩
    rw [hres]
    refine List.mem_map.mpr ⟨t, ht', ?_⟩
    rw [hlook]



theorem C3_series_extractor_guarantees_witness :
    (monthly_series_for_geo [⟨"GA", ⟨600, 1⟩, some 5⟩, ⟨"TX", ⟨601, 1⟩, some 9⟩,
        ⟨"GA", ⟨602, 1⟩, some 7⟩] "GA").map Prod.fst = msRange 600 602 ∧
    List.Pairwise (· < ·) ((monthly_series_for_geo [⟨"GA", ⟨600, 1⟩, some 5⟩,
        ⟨"TX", ⟨601, 1⟩, some 9⟩, ⟨"GA", ⟨602, 1⟩, some 7⟩] "GA").map Prod.fst) := by
  have h := C3_series_extractor_guarantees
    [⟨"GA", ⟨600, 1⟩, some 5⟩, ⟨"TX", ⟨601, 1⟩, some 9⟩, ⟨"GA", ⟨602, 1⟩, some 7⟩]
    "GA" ⟨600, 1⟩ ⟨602, 1⟩ (by decide) (by decide) (by decide)
  refine ⟨?_, h.2.1⟩
  have h1 := h.1
  rw [show monthStartCeil (⟨600, 1⟩ : MDate) = 600 from rfl,
      show monthEndFloor (⟨602, 1⟩ : MDate) = 602 from rfl] at h1
  exact h1

/-- The result guarantee is false when the source rows carry a duplicate
month for the region: the asfreq reindex raises, the bare except swallows
the error, and the returned series keeps the duplicated month. -/
theorem C3_counterexample :
    (monthly_series_for_geo [⟨"GA", ⟨600, 1⟩, some 5⟩, ⟨"GA", ⟨600, 1⟩, some 5⟩]
        "GA").map Prod.fst = [⟨600, 1⟩, ⟨600, 1⟩] ∧
    ¬ ((monthly_series_for_geo [⟨"GA", ⟨600, 1⟩, some 5⟩, ⟨"GA", ⟨600, 1⟩, some 5⟩]
        "GA").map Prod.fst).Nodup := by
  constructor
  · decide
  · decide


/-! ## Claim C7 -/


theorem months_filterMap_graph (l : List ℕ) (φ : ℕ → Option ℚ) :
    ((l.filterMap (fun i => (φ i).map (fun q => (i, q)))).map Prod.fst) =
      l.filter (fun i => (φ i).isSome) := by
  induction l with
  | nil => rfl
  | cons x xs ih =>
      rw [List.filterMap_cons, List.filter_cons]
      cases hx : φ x with
      | none => simpa [hx] using ih
      | some q => simpa [hx] using ih

theorem months_enumFrom_map {α β : Type} (l : List α) (k : α → ℕ) (g : ℕ → β) :
    ∀ n, (((l.enumFrom n).map (fun q => (k q.2, g q.1))).map Prod.fst) = l.map k := by
  induction l with
  | nil => intro n; rfl
  | cons x xs ih =>
      intro n
      rw [List.enumFrom_cons, List.map_cons, List.map_cons, List.map_cons, ih (n + 1)]

theorem stdVarRows_months (y : List (Option ℚ)) (w : ℕ) :
    (stdVarRows y w).map Prod.fst = (residRows y w).map Prod.fst := by
  unfold stdVarRows
  exact months_enumFrom_map (residRows y w) Prod.fst (rollingVarAt (residRows y w) w) 0

theorem residRows_months (y : List (Option ℚ)) (w : ℕ) :
    (residRows y w).map Prod.fst =
      (List.range y.length).filter (fun i => (residAt y w i).isSome) :=
  months_filterMap_graph _ _

theorem stdVarRows_months_nodup (y : List (Option ℚ)) (w : ℕ) :
    ((stdVarRows y w).map Prod.fst).Nodup := by
  rw [stdVarRows_months, residRows_months]
  exact (List.nodup_range _).filter _

theorem stdVarRows_months_pairwise (y : List (Option ℚ)) (w : ℕ) :
    List.Pairwise (· < ·) ((stdVarRows y w).map Prod.fst) := by
  rw [stdVarRows_months, residRows_months]
  exact (List.pairwise_lt_range _).filter _

theorem assoc_find?_eq {l : List (ℕ × Option ℚ)} {i : ℕ} {o : Option ℚ}
    (hnd : (l.map Prod.fst).Nodup) (hmem : (i, o) ∈ l) :
    l.find? (fun p => decide (p.1 = i)) = some (i, o) := by
  induction l with
  | nil => cases hmem
  | cons x xs ih =>
      rw [List.find?_cons]
      by_cases hx : x.1 = i
      · have hxio : x = (i, o) := by
          rcases List.mem_cons.mp hmem with h | h
          · exact h.symm
          · exfalso
            have hkey : i ∈ xs.map Prod.fst := List.mem_map.mpr ⟨(i, o), h, rfl⟩
            rw [List.map_cons] at hnd
            exact (List.nodup_cons.mp hnd).1 (hx ▸ hkey)
        rw [hxio]
        simp
      · have hfalse : (decide (x.1 = i)) = false := by simp [hx]
        rw [hfalse]
        refine ih ?_ ?_
        · rw [List.map_cons] at hnd
          exact (List.nodup_cons.mp hnd).2
        · rcases List.mem_cons.mp hmem with h | h
          · exact absurd (congrArg Prod.fst h.symm) hx
          · exact h

theorem stdVarAtMonth_eq {y : List (Option ℚ)} {w i : ℕ} {o : Option ℚ}
    (hmem : (i, o) ∈ stdVarRows y w) : stdVarAtMonth y w i = o := by
  unfold stdVarAtMonth
  rw [assoc_find?_eq (stdVarRows_months_nodup y w) hmem]

theorem stdVarAtMonth_isSome_mem {y : List (Option ℚ)} {w i : ℕ}
    (h : (stdVarAtMonth y w i).isSome) :
    ∃ v : ℚ, (i, some v) ∈ stdVarRows y w := by
  unfold stdVarAtMonth at h
  cases hf : (stdVarRows y w).find? (fun p => decide (p.1 = i)) with
  | none => rw [hf] at h; cases h
  | some p =>
      rw [hf] at h
      dsimp only at h
      have hp_mem : p ∈ stdVarRows y w := List.mem_of_find?_eq_some hf
      have hp_key : p.1 = i := by
        have := List.find?_some hf
        exact of_decide_eq_true this
      cases hp2 : p.2 with
      | none => rw [hp2] at h; cases h
      | some v =>
          refine ⟨v, ?_⟩
          have : p = (i, some v) := by
            cases p
            simp_all
          rw [← this]
          exact hp_mem

theorem mem_windowSlice_mem {α : Type} {l : List α} {w i : ℕ} {x : α}
    (h : x ∈ windowSlice l w i) : x ∈ l := by
  unfold windowSlice at h
  exact List.mem_of_mem_take (List.mem_of_mem_drop h)

theorem rollingMeanAt_pos {y : List (Option ℚ)} {w i : ℕ} {t : ℚ}
    (hpos : ∀ o ∈ y, ∀ v : ℚ, o = some v → 0 < v)
    (h : rollingMeanAt y w i = some t) : 0 < t := by
  dsimp only [rollingMeanAt] at h
  split_ifs at h with hlen
  · have ht : t = rationalMean ((windowSlice y w i).filterMap id) := by
      exact (Option.some.injEq _ _ ▸ h).symm
    have hobs_pos : ∀ x ∈ (windowSlice y w i).filterMap id, (0 : ℚ) < x := by
      intro x hx
      rcases List.mem_filterMap.mp hx with ⟨o, ho, hox⟩
      exact hpos o (mem_windowSlice_mem ho) x (by cases o <;> simp_all)
    have hne : (windowSlice y w i).filterMap id ≠ [] := by
      intro h0
      rw [h0] at hlen
      have h0' : minPeriods w = 0 := Nat.le_zero.mp hlen
      have h3 : 3 ≤ minPeriods w := le_max_left _ _
      omega
    have hsum : 0 < ((windowSlice y w i).filterMap id).sum := List.sum_pos _ hobs_pos hne
    have hlen' : 0 < (((windowSlice y w i).filterMap id).length : ℚ) := by
      have : 0 < ((windowSlice y w i).filterMap id).length := List.length_pos.mpr hne
      exact_mod_cast this
    rw [ht]
    exact div_pos hsum hlen'

theorem residAt_isSome {y : List (Option ℚ)} {w i : ℕ} (h : (residAt y w i).isSome) :
    (rollingMeanAt y w i).isSome := by
  unfold residAt at h
  cases hv : y.getD i none with
  | none => rw [hv] at h; cases h
  | some v =>
      cases ht : rollingMeanAt y w i with
      | none => rw [hv, ht] at h; cases h
      | some t => simp

theorem stdVar_month_trend {y : List (Option ℚ)} {w i : ℕ}
    (h : ∃ v : ℚ, (i, some v) ∈ stdVarRows y w) :
    (rollingMeanAt y w i).isSome := by
  rcases h with ⟨v, hmem⟩
  have hi : i ∈ (stdVarRows y w).map Prod.fst := List.mem_map.mpr ⟨(i, some v), hmem, rfl⟩
  rw [stdVarRows_months, residRows_months] at hi
  have := (List.mem_filter.mp hi).2
  exact residAt_isSome (by simpa using this)



theorem core_mem_spec {y : List (Option ℚ)} {w i : ℕ} {v t : ℚ}
    (h : (i, v, t) ∈ residual_volatility_core y w) :
    (i, some v) ∈ stdVarRows y w ∧ rollingMeanAt y w i = some t ∧ ¬ (v = 0 ∧ t = 0) := by
  unfold residual_volatility_core at h
  rcases List.mem_filterMap.mp h with ⟨p, hp, hg⟩
  cases hp2 : p.2 with
  | none => rw [hp2] at hg; cases hg
  | some v' =>
      cases ht : rollingMeanAt y w p.1 with
      | none => rw [hp2, ht] at hg; cases hg
      | some t' =>
          rw [hp2, ht] at hg
          dsimp only at hg
          split_ifs at hg with h00
          have hinj := Option.some.inj hg
          obtain ⟨hkey, hv, htv⟩ : p.1 = i ∧ v' = v ∧ t' = t := by
            refine ⟨congrArg Prod.fst hinj, ?_, ?_⟩
            · exact congrArg (fun z => z.2.1) hinj
            · exact congrArg (fun z => z.2.2) hinj
          subst hkey hv htv
          refine ⟨?_, ht, h00⟩
          have hpe : p = (p.1, some v') := by
            cases p
            simp_all
          rw [← hpe]
          exact hp

theorem core_month_iff {y : List (Option ℚ)} {w i : ℕ}
    (hpos : ∀ o ∈ y, ∀ v : ℚ, o = some v → 0 < v) :
    i ∈ (residual_volatility_core y w).map Prod.fst ↔ (stdVarAtMonth y w i).isSome := by
  constructor
  · intro h
    rcases List.mem_map.mp h with ⟨p, hp, hkey⟩
    obtain ⟨i', v, t⟩ := p
    have hkey' : i' = i := hkey
    subst hkey'
    rw [stdVarAtMonth_eq (core_mem_spec hp).1]
    rfl
  · intro h
    obtain ⟨v, hmem⟩ := stdVarAtMonth_isSome_mem h
    have htr : (rollingMeanAt y w i).isSome := stdVar_month_trend ⟨v, hmem⟩
    obtain ⟨t, ht⟩ := Option.isSome_iff_exists.mp htr
    have htpos : 0 < t := rollingMeanAt_pos hpos ht
    refine List.mem_map.mpr ⟨(i, v, t), ?_, rfl⟩
    unfold residual_volatility_core
    refine List.mem_filterMap.mpr ⟨(i, some v), hmem, ?_⟩
    dsimp only
    rw [ht]
    dsimp only
    rw [if_neg (fun hc => htpos.ne' hc.2)]

theorem filterMap_key_sublist {α γ : Type} (l : List α) (g : α → Option γ)
    (k : α → ℕ) (k' : γ → ℕ) (hg : ∀ a c, g a = some c → k' c = k a) :
    ((l.filterMap g).map k').Sublist (l.map k) := by
  induction l with
  | nil => simp
  | cons x xs ih =>
      rw [List.filterMap_cons]
      cases hx : g x with
      | none =>
          rw [List.map_cons]
          exact ih.cons (k x)
      | some c =>
          rw [List.map_cons, List.map_cons, hg x c hx]
          exact ih.cons₂ (k x)

theorem core_months_pairwise (y : List (Option ℚ)) (w : ℕ) :
    List.Pairwise (· < ·) ((residual_volatility_core y w).map Prod.fst) := by
  have hsub : ((residual_volatility_core y w).map Prod.fst).Sublist
      ((stdVarRows y w).map Prod.fst) := by
    unfold residual_volatility_core
    refine filterMap_key_sublist _ _ Prod.fst Prod.fst ?_
    intro p c hg
    cases hp2 : p.2 with
    | none => rw [hp2] at hg; cases hg
    | some v' =>
        cases ht : rollingMeanAt y w p.1 with
        | none => rw [hp2, ht] at hg; cases hg
        | some t' =>
            rw [hp2, ht] at hg
            dsimp only at hg
            split_ifs at hg
            exact (congrArg Prod.fst (Option.some.inj hg)).symm
  exact (stdVarRows_months_pairwise y w).sublist hsub

theorem residual_volatility_months_eq (y : List (Option ℚ)) (w : ℕ) :
    (residual_volatility y w).map Prod.fst =
      (residual_volatility_core y w).map Prod.fst := by
  unfold residual_volatility
  rw [List.map_map]
  refine List.map_congr_left ?_
  intro p _
  by_cases h : p.2.2 = 0 <;> simp [h]

/-- C7 (amended): for a positive-valued series (so the rolling trend is
never zero where defined) and a window of at least three periods, the
emitted index series is sqrt of the rolling residual variance over the
rolling trend at exactly the months where the rolling residual std is
computable; the trend there is computable too, months with fewer than
max(3, w div 2) real observations in their trailing window are never
emitted, the output months are strictly increasing, and the first emitted
month is the first with a computable rolling residual std. On series that
are not positive-valued, a month whose rolling std and trend are both
zero is dropped (0/0 is NaN) and a zero trend under a positive std gives
an infinite index, so the unrestricted claim fails. -/
theorem C7_residual_volatility_emission (y : List (Option ℚ)) (w : ℕ)
    (_hw : 3 ≤ w)
    (hpos : ∀ o ∈ y, ∀ v : ℚ, o = some v → 0 < v) :
    residual_volatility y w = (residual_volatility_core y w).map
      (fun p => (p.1, RVal.num (Real.sqrt p.2.1 / p.2.2))) ∧
    (∀ i v t, (i, v, t) ∈ residual_volatility_core y w →
      stdVarAtMonth y w i = some v ∧ rollingMeanAt y w i = some t ∧ 0 < t) ∧
    (∀ i, i ∈ (residual_volatility y w).map Prod.fst ↔ (stdVarAtMonth y w i).isSome) ∧
    (∀ i, (stdVarAtMonth y w i).isSome → (rollingMeanAt y w i).isSome) ∧
    List.Pairwise (· < ·) ((residual_volatility y w).map Prod.fst) ∧
    (∀ i, ((windowSlice y w i).filterMap id).length < minPeriods w →
      i ∉ (residual_volatility y w).map Prod.fst) ∧
    (∀ i0, ((residual_volatility y w).map Prod.fst).head? = some i0 →
      (stdVarAtMonth y w i0).isSome ∧ ∀ j, j < i0 → ¬ (stdVarAtMonth y w j).isSome) := by
  have hval : ∀ p ∈ residual_volatility_core y w, 0 < p.2.2 := by
    intro p hp
    obtain ⟨i, v, t⟩ := p
    exact rollingMeanAt_pos hpos (core_mem_spec hp).2.1
  have hmonths : (residual_volatility y w).map Prod.fst =
      (residual_volatility_core y w).map Prod.fst := residual_volatility_months_eq y w
  have hiff : ∀ i, i ∈ (residual_volatility y w).map Prod.fst ↔
      (stdVarAtMonth y w i).isSome := by
    intro i
    rw [hmonths]
    exact core_month_iff hpos
  have htrend : ∀ i, (stdVarAtMonth y w i).isSome → (rollingMeanAt y w i).isSome := by
    intro i h
    obtain ⟨v, hmem⟩ := stdVarAtMonth_isSome_mem h
    exact stdVar_month_trend ⟨v, hmem⟩
  have hpair : List.Pairwise (· < ·) ((residual_volatility y w).map Prod.fst) := by
    rw [hmonths]
    exact core_months_pairwise y w
  refine ⟨?_, ?_, hiff, htrend, hpair, ?_, ?_⟩
  · unfold residual_volatility
    refine List.map_congr_left ?_
    intro p hp
    rw [if_neg (hval p hp).ne']
  · intro i v t h
    exact ⟨stdVarAtMonth_eq (core_mem_spec h).1, (core_mem_spec h).2.1,
      rollingMeanAt_pos hpos (core_mem_spec h).2.1⟩
  · intro i hins hmem
    have h1 : (stdVarAtMonth y w i).isSome := (hiff i).mp hmem
    have h2 : (rollingMeanAt y w i).isSome := htrend i h1
    have h3 : rollingMeanAt y w i = none := by
      dsimp only [rollingMeanAt]
      rw [if_neg (by omega)]
    rw [h3] at h2
    cases h2
  · intro i0 h0
    have hmem : i0 ∈ (residual_volatility y w).map Prod.fst := by
      cases hM : (residual_volatility y w).map Prod.fst with
      | nil => rw [hM] at h0; cases h0
      | cons a as =>
          rw [hM] at h0
          have ha : a = i0 := Option.some.inj h0
          subst ha
          simp
    refine ⟨(hiff i0).mp hmem, ?_⟩
    intro j hj hjs
    have hjmem : j ∈ (residual_volatility y w).map Prod.fst := (hiff j).mpr hjs
    cases hM : (residual_volatility y w).map Prod.fst with
    | nil => rw [hM] at hjmem; cases hjmem
    | cons a as =>
        rw [hM] at h0 hjmem hpair
        have ha : a = i0 := Option.some.inj h0
        subst ha
        rcases List.mem_cons.mp hjmem with rfl | hj'
        · exact absurd hj (lt_irrefl j)
        · have := (List.pairwise_cons.mp hpair).1 j hj'
          omega



/-- A dense eleven-month constant positive series: the first month with a
computable rolling residual std at window 12 is month 10. -/
def y1C7 : List (Option ℚ) :=
  [some 1, some 1, some 1, some 1, some 1, some 1, some 1, some 1, some 1, some 1, some 1]

set_option maxRecDepth 1000000 in
theorem C7_residual_volatility_emission_witness :
    (stdVarAtMonth y1C7 12 10).isSome ∧
    10 ∈ (residual_volatility y1C7 12).map Prod.fst ∧
    4 ∉ (residual_volatility y1C7 12).map Prod.fst := by
  have h := C7_residual_volatility_emission y1C7 12 (by norm_num) (by
    intro o ho v hv
    have ho1 : o = some 1 := by
      simpa [y1C7] using ho
    rw [ho1] at hv
    have hv1 : (1 : ℚ) = v := Option.some.inj hv
    rw [← hv1]
    norm_num)
  have hs : (stdVarAtMonth y1C7 12 10).isSome := by with_unfolding_all decide
  have hs4 : ¬ (stdVarAtMonth y1C7 12 4).isSome := by with_unfolding_all decide
  exact ⟨hs, (h.2.2.1 10).mpr hs, fun hm => hs4 ((h.2.2.1 4).mp hm)⟩

/-- A dense eleven-month all-zero series. -/
def y0C7 : List (Option ℚ) :=
  [some 0, some 0, some 0, some 0, some 0, some 0, some 0, some 0, some 0, some 0, some 0]

set_option maxRecDepth 1000000 in
/-- The claim that the first emitted month is the first with a computable
rolling trend and rolling residual std is false as stated: on an all-zero
series with window 12, month 10 has rolling trend 0 and rolling residual
std 0, both computable, yet the emitted index series is empty, because
std / trend = 0 / 0 is NaN and is dropped. -/
theorem C7_counterexample :
    rollingMeanAt y0C7 12 10 = some 0 ∧
    stdVarAtMonth y0C7 12 10 = some 0 ∧
    residual_volatility y0C7 12 = [] := by
  refine ⟨by with_unfolding_all decide, by with_unfolding_all decide, ?_⟩
  have hcore : residual_volatility_core y0C7 12 = [] := by with_unfolding_all decide
  unfold residual_volatility
  rw [hcore]
  rfl


end ZoriPipeline
